import Mathlib

set_option maxHeartbeats 1000000

/-!
Verification of the statistics core of `language/move-lang/src/bin/paper-analyze.rs`:
a traversal that walks compiled Move units (modules and scripts) and accumulates
counts of reference-related instructions and signature annotations.

The Rust code is embedded shallowly: the mutable `Counts` accumulator threaded by
`&mut` becomes explicit state passing, `usize` counters become `Nat` (the counters
only ever grow by small increments, so overflow is immaterial), and vector indexing
`v[i as usize]` becomes `List.getD` with a default (verified units always carry
in-range indices, and no claim depends on the out-of-range behaviour).

The `Bytecode` and `SignatureToken` enumerations live in the external
`move_vm::file_format` crate; they are reproduced here with the constructors the
classifier tracks plus a representative set of untracked constructors (the source
match ends in a catch-all `_ => ()`, so only the tracked arms matter). Type
arguments of struct instantiations are omitted: the classifier never inspects them.
-/

namespace PaperAnalyze

/-- Type tokens of the Move signature language (`SignatureToken` in
`move_vm::file_format`). Only `Reference` and `MutableReference` are
distinguished by the classifier; every other variant falls to the wildcard arm. -/
inductive SignatureToken where
  | Bool
  | U8
  | U64
  | U128
  | Address
  | Signer
  | Vector (t : SignatureToken)
  | Struct (idx : Nat)
  | StructInstantiation (idx : Nat)
  | Reference (t : SignatureToken)
  | MutableReference (t : SignatureToken)
  | TypeParameter (idx : Nat)
  deriving DecidableEq

/-- The Move bytecode instruction set (`Bytecode` in `move_vm::file_format`):
the eleven reference-related constructors matched by `count_instruction`, plus a
representative set of the untracked constructors covered by its `_ => ()` arm. -/
inductive Bytecode where
  | Pop
  | Ret
  | BrTrue (off : Nat)
  | BrFalse (off : Nat)
  | Branch (off : Nat)
  | LdU8 (v : Nat)
  | LdU64 (v : Nat)
  | LdU128 (v : Nat)
  | LdConst (idx : Nat)
  | LdTrue
  | LdFalse
  | CopyLoc (idx : Nat)
  | MoveLoc (idx : Nat)
  | StLoc (idx : Nat)
  | Call (idx : Nat)
  | CallGeneric (idx : Nat)
  | Pack (idx : Nat)
  | Unpack (idx : Nat)
  | ReadRef
  | WriteRef
  | FreezeRef
  | MutBorrowLoc (idx : Nat)
  | ImmBorrowLoc (idx : Nat)
  | MutBorrowField (idx : Nat)
  | MutBorrowFieldGeneric (idx : Nat)
  | ImmBorrowField (idx : Nat)
  | ImmBorrowFieldGeneric (idx : Nat)
  | MutBorrowGlobal (idx : Nat)
  | MutBorrowGlobalGeneric (idx : Nat)
  | ImmBorrowGlobal (idx : Nat)
  | ImmBorrowGlobalGeneric (idx : Nat)
  | Add
  | Sub
  | Mul
  | Div
  | Eq
  | Neq
  | Lt
  | Abort
  | Nop
  | Exists (idx : Nat)
  | MoveFrom (idx : Nat)
  deriving DecidableEq

/-- The `Counts` accumulator of `paper-analyze.rs`, with the same fields. -/
@[ext]
structure Counts where
  imm_borrow_loc : Nat := 0
  mut_borrow_loc : Nat := 0
  imm_borrow_field : Nat := 0
  mut_borrow_field : Nat := 0
  imm_borrow_global : Nat := 0
  mut_borrow_global : Nat := 0
  freeze : Nat := 0
  total_instructions : Nat := 0
  reference_parameters : Nat := 0
  reference_return_values : Nat := 0
  acquires_annotations : Nat := 0
  total_functions : Nat := 0
  functions_with_reference_operations : Nat := 0
  functions_with_reference_signatures : Nat := 0
  functions_with_acquires : Nat := 0
  total_modules : Nat := 0
  modules_with_acquires : Nat := 0
  deriving DecidableEq

/-- `Counts::default()`: every counter starts at zero. -/
def Counts.default : Counts := {}

/-- `Counts::total_reference_operations`: the sum of the 7 reference-operation
counters. -/
def Counts.total_reference_operations (self : Counts) : Nat :=
  self.imm_borrow_loc
    + self.mut_borrow_loc
    + self.imm_borrow_field
    + self.mut_borrow_field
    + self.imm_borrow_global
    + self.mut_borrow_global
    + self.freeze

/-- `count_instruction`: bump `total_instructions`, then dispatch on the
instruction kind exactly as the source `match` does. -/
def count_instruction (counts : Counts) (instr : Bytecode) : Counts :=
  let counts := { counts with total_instructions := counts.total_instructions + 1 }
  match instr with
  | .ImmBorrowLoc _ => { counts with imm_borrow_loc := counts.imm_borrow_loc + 1 }
  | .MutBorrowLoc _ => { counts with mut_borrow_loc := counts.mut_borrow_loc + 1 }
  | .ImmBorrowField _ | .ImmBorrowFieldGeneric _ =>
      { counts with imm_borrow_field := counts.imm_borrow_field + 1 }
  | .MutBorrowField _ | .MutBorrowFieldGeneric _ =>
      { counts with mut_borrow_field := counts.mut_borrow_field + 1 }
  | .ImmBorrowGlobal _ | .ImmBorrowGlobalGeneric _ =>
      { counts with imm_borrow_global := counts.imm_borrow_global + 1 }
  | .MutBorrowGlobal _ | .MutBorrowGlobalGeneric _ =>
      { counts with mut_borrow_global := counts.mut_borrow_global + 1 }
  | .FreezeRef => { counts with freeze := counts.freeze + 1 }
  | _ => counts

/-- `count_instructions`: record the reference-operation sum, classify every
instruction in order, and flag the function if the sum strictly increased. -/
def count_instructions (counts : Counts) (code : List Bytecode) : Counts :=
  let before_reference_instruction := counts.total_reference_operations
  let counts := code.foldl count_instruction counts
  let after_reference_instruction := counts.total_reference_operations
  if before_reference_instruction < after_reference_instruction then
    { counts with functions_with_reference_operations :=
        counts.functions_with_reference_operations + 1 }
  else counts

/-- One step of the `for parameter in parameters` loop of
`count_function_signature`; the `Bool` component is the `has_reference` flag. -/
def count_parameter (st : Counts × Bool) (parameter : SignatureToken) : Counts × Bool :=
  match parameter with
  | .Reference _ | .MutableReference _ =>
      ({ st.1 with reference_parameters := st.1.reference_parameters + 1 }, true)
  | _ => st

/-- One step of the `for return_type in return_types` loop of
`count_function_signature`. -/
def count_return_type (st : Counts × Bool) (return_type : SignatureToken) : Counts × Bool :=
  match return_type with
  | .Reference _ | .MutableReference _ =>
      ({ st.1 with reference_return_values := st.1.reference_return_values + 1 }, true)
  | _ => st

/-- `count_function_signature`: classify one function's parameter types, return
types and acquire list. Acquire indices (`StructDefinitionIndex`) are `Nat`. -/
def count_function_signature (counts : Counts) (parameters : List SignatureToken)
    (return_types : List SignatureToken) (acquires : List Nat) : Counts :=
  let counts := { counts with total_functions := counts.total_functions + 1 }
  let st := parameters.foldl count_parameter (counts, false)
  let st := return_types.foldl count_return_type st
  let counts := st.1
  let has_reference := st.2
  let counts :=
    if has_reference then
      { counts with functions_with_reference_signatures :=
          counts.functions_with_reference_signatures + 1 }
    else counts
  let counts :=
    if !acquires.isEmpty then
      { counts with functions_with_acquires := counts.functions_with_acquires + 1 }
    else counts
  { counts with acquires_annotations := counts.acquires_annotations + acquires.length }

/-- A function handle: indices of the parameter and return signatures in the
module's signature pool. -/
structure FunctionHandle where
  parameters : Nat
  return_ : Nat
  deriving DecidableEq

/-- A code unit: the instruction body of a function. -/
structure CodeUnit where
  code : List Bytecode
  deriving DecidableEq

/-- A function definition: handle index, acquire declarations, optional body. -/
structure FunctionDefinition where
  function : Nat
  acquires_global_resources : List Nat
  code : Option CodeUnit
  deriving DecidableEq

/-- The parts of a compiled module that `count_module` reads. A signature is an
ordered list of type tokens (the `.0` of the source's `Signature`). -/
structure CompiledModule where
  function_handles : List FunctionHandle
  signatures : List (List SignatureToken)
  function_defs : List FunctionDefinition
  deriving DecidableEq

/-- The parts of a compiled script that `count_script` reads. -/
structure CompiledScript where
  signatures : List (List SignatureToken)
  parameters : Nat
  code : CodeUnit
  deriving DecidableEq

/-- The body of the `for fdef in &module.function_defs` loop of `count_module`:
resolve the handle, classify the signature, then walk the body if present. -/
def count_module_function (module : CompiledModule) (counts : Counts)
    (fdef : FunctionDefinition) : Counts :=
  let fhandle := module.function_handles.getD fdef.function ⟨0, 0⟩
  let counts := count_function_signature counts
    (module.signatures.getD fhandle.parameters [])
    (module.signatures.getD fhandle.return_ [])
    fdef.acquires_global_resources
  match fdef.code with
  | some code => count_instructions counts code.code
  | none => counts

/-- `count_module`: bump `total_modules`, walk every function definition, and
flag the module if its processing added any acquire annotations. -/
def count_module (counts : Counts) (module : CompiledModule) : Counts :=
  let counts := { counts with total_modules := counts.total_modules + 1 }
  let before_acquires := counts.acquires_annotations
  let counts := module.function_defs.foldl (count_module_function module) counts
  let after_acquires := counts.acquires_annotations
  if before_acquires < after_acquires then
    { counts with modules_with_acquires := counts.modules_with_acquires + 1 }
  else counts

/-- `count_script`: classify the script's single parameter signature with empty
return and acquire lists, then walk its body. -/
def count_script (counts : Counts) (script : CompiledScript) : Counts :=
  let counts := count_function_signature counts
    (script.signatures.getD script.parameters []) [] []
  count_instructions counts script.code.code

/-- A compiled unit as dispatched on in `main`. -/
inductive CompiledUnit where
  | Script (script : CompiledScript)
  | Module (module : CompiledModule)
  deriving DecidableEq

/-- The per-unit dispatch of `main`'s `for unit in &compiled_units` loop. -/
def count_unit (counts : Counts) (unit : CompiledUnit) : Counts :=
  match unit with
  | .Script script => count_script counts script
  | .Module module => count_module counts module

/-- The counting loop of `main`: fold `count_unit` over the corpus. -/
def run_units (counts : Counts) (units : List CompiledUnit) : Counts :=
  units.foldl count_unit counts

/-- The gate in `main`: `assert!(errors.is_empty())` runs after verification and
before `Counts::default()` is even constructed. A failing assertion aborts the
process, modelled here by `none`: no `Counts` value exists for an aborted run. -/
def analyze_verified_units (compiled_units : List CompiledUnit)
    (errors : List Nat) : Option Counts :=
  if errors.isEmpty then some (run_units Counts.default compiled_units) else none

/-! Specification-side vocabulary: the 7 reference-operation buckets, the
bucket assignment of an instruction, and reference-typed tokens. -/

/-- The 7 reference-operation buckets of the taxonomy. -/
inductive RefKind where
  | immBorrowLoc
  | mutBorrowLoc
  | immBorrowField
  | mutBorrowField
  | immBorrowGlobal
  | mutBorrowGlobal
  | freezeRef
  deriving DecidableEq

/-- The bucket an instruction belongs to, `none` for untracked instructions.
Mirrors the arms of the `match` in `count_instruction`: the generic field and
global borrows share the bucket of their non-generic counterparts. -/
def refBucket : Bytecode → Option RefKind
  | .ImmBorrowLoc _ => some .immBorrowLoc
  | .MutBorrowLoc _ => some .mutBorrowLoc
  | .ImmBorrowField _ | .ImmBorrowFieldGeneric _ => some .immBorrowField
  | .MutBorrowField _ | .MutBorrowFieldGeneric _ => some .mutBorrowField
  | .ImmBorrowGlobal _ | .ImmBorrowGlobalGeneric _ => some .immBorrowGlobal
  | .MutBorrowGlobal _ | .MutBorrowGlobalGeneric _ => some .mutBorrowGlobal
  | .FreezeRef => some .freezeRef
  | _ => none

/-- The counter field of `Counts` that a bucket feeds. -/
def refCounter (counts : Counts) : RefKind → Nat
  | .immBorrowLoc => counts.imm_borrow_loc
  | .mutBorrowLoc => counts.mut_borrow_loc
  | .immBorrowField => counts.imm_borrow_field
  | .mutBorrowField => counts.mut_borrow_field
  | .immBorrowGlobal => counts.imm_borrow_global
  | .mutBorrowGlobal => counts.mut_borrow_global
  | .freezeRef => counts.freeze

/-- An instruction is a tracked reference operation iff it has a bucket. -/
def isReferenceInstruction (instr : Bytecode) : Bool :=
  (refBucket instr).isSome

/-- A type token is a reference iff it is `Reference` or `MutableReference`,
the two arms singled out by the signature loops. -/
def isReferenceToken : SignatureToken → Bool
  | .Reference _ | .MutableReference _ => true
  | _ => false

/-! Proof infrastructure: fieldwise addition of `Counts` and the fact that every
counting function commutes with it (each call adds a context-independent delta). -/

/-- Fieldwise addition of two `Counts` values. -/
def addCounts (a b : Counts) : Counts where
  imm_borrow_loc := a.imm_borrow_loc + b.imm_borrow_loc
  mut_borrow_loc := a.mut_borrow_loc + b.mut_borrow_loc
  imm_borrow_field := a.imm_borrow_field + b.imm_borrow_field
  mut_borrow_field := a.mut_borrow_field + b.mut_borrow_field
  imm_borrow_global := a.imm_borrow_global + b.imm_borrow_global
  mut_borrow_global := a.mut_borrow_global + b.mut_borrow_global
  freeze := a.freeze + b.freeze
  total_instructions := a.total_instructions + b.total_instructions
  reference_parameters := a.reference_parameters + b.reference_parameters
  reference_return_values := a.reference_return_values + b.reference_return_values
  acquires_annotations := a.acquires_annotations + b.acquires_annotations
  total_functions := a.total_functions + b.total_functions
  functions_with_reference_operations :=
    a.functions_with_reference_operations + b.functions_with_reference_operations
  functions_with_reference_signatures :=
    a.functions_with_reference_signatures + b.functions_with_reference_signatures
  functions_with_acquires := a.functions_with_acquires + b.functions_with_acquires
  total_modules := a.total_modules + b.total_modules
  modules_with_acquires := a.modules_with_acquires + b.modules_with_acquires

/-- Test scenario A of the spec: a module with one function whose body is
`[ImmBorrowLoc, MutBorrowField, FreezeRef]`, one `Reference` parameter, no
return types and no acquires. -/
def scenarioA : CompiledModule :=
  { function_handles := [⟨0, 1⟩]
    signatures := [[.Reference .U64], []]
    function_defs := [⟨0, [], some ⟨[.ImmBorrowLoc 0, .MutBorrowField 0, .FreezeRef]⟩⟩] }

/-- A concrete script unit used to exhibit order-independence. -/
def unitA : CompiledUnit := .Script ⟨[[.U64]], 0, ⟨[.ImmBorrowLoc 0]⟩⟩

/-- A concrete module unit used to exhibit order-independence. -/
def unitB : CompiledUnit := .Module ⟨[⟨0, 0⟩], [[]], [⟨0, [5], none⟩]⟩

/-- A concrete function definition with a body and no acquires. -/
def fdefA : FunctionDefinition := ⟨0, [], some ⟨[.FreezeRef]⟩⟩

/-- A concrete native (body-less) function definition with one acquire. -/
def fdefB : FunctionDefinition := ⟨0, [3], none⟩

/-- A concrete module holding `fdefA` and `fdefB`, used to exhibit
order-independence of function processing. -/
def moduleAB : CompiledModule := ⟨[⟨0, 0⟩], [[]], [fdefA, fdefB]⟩

theorem addCounts_assoc (a b c : Counts) :
    addCounts (addCounts a b) c = addCounts a (addCounts b c) := by
  ext <;> simp [addCounts] <;> omega

theorem addCounts_comm (a b : Counts) : addCounts a b = addCounts b a := by
  ext <;> simp [addCounts] <;> omega

theorem addCounts_zero (a : Counts) : addCounts a Counts.default = a := by
  ext <;> simp [addCounts, Counts.default]

theorem total_reference_operations_add (a b : Counts) :
    (addCounts a b).total_reference_operations =
      a.total_reference_operations + b.total_reference_operations := by
  simp [addCounts, Counts.total_reference_operations]
  omega

theorem count_instruction_shift (c d : Counts) (i : Bytecode) :
    count_instruction (addCounts c d) i = addCounts c (count_instruction d i) := by
  cases i <;> (ext <;> simp [count_instruction, addCounts] <;> omega)

theorem foldl_count_instruction_shift (l : List Bytecode) (c d : Counts) :
    l.foldl count_instruction (addCounts c d) = addCounts c (l.foldl count_instruction d) := by
  induction l generalizing d with
  | nil => rfl
  | cons i is ih => simp only [List.foldl_cons, count_instruction_shift, ih]

theorem count_instructions_shift (c d : Counts) (l : List Bytecode) :
    count_instructions (addCounts c d) l = addCounts c (count_instructions d l) := by
  simp only [count_instructions, foldl_count_instruction_shift,
    total_reference_operations_add]
  by_cases h : d.total_reference_operations <
      (l.foldl count_instruction d).total_reference_operations
  · rw [if_pos (by omega), if_pos h]
    ext <;> simp [addCounts] <;> omega
  · rw [if_neg (by omega), if_neg h]

theorem count_parameter_eq (st : Counts × Bool) (p : SignatureToken) :
    count_parameter st p =
      if isReferenceToken p then
        ({ st.1 with reference_parameters := st.1.reference_parameters + 1 }, true)
      else st := by
  cases p <;> rfl

theorem count_return_type_eq (st : Counts × Bool) (p : SignatureToken) :
    count_return_type st p =
      if isReferenceToken p then
        ({ st.1 with reference_return_values := st.1.reference_return_values + 1 }, true)
      else st := by
  cases p <;> rfl

theorem foldl_count_parameter (l : List SignatureToken) (c : Counts) (h : Bool) :
    l.foldl count_parameter (c, h) =
      ({ c with reference_parameters :=
          c.reference_parameters + l.countP isReferenceToken },
        h || l.any isReferenceToken) := by
  induction l generalizing c h with
  | nil => simp
  | cons x xs ih =>
      rw [List.foldl_cons, count_parameter_eq]
      by_cases hx : isReferenceToken x
      · rw [if_pos hx, ih]
        refine Prod.ext ?_ ?_
        · ext <;> simp [List.countP_cons, hx] <;> omega
        · simp [hx]
      · rw [if_neg hx, ih]
        refine Prod.ext ?_ ?_
        · ext <;> simp [List.countP_cons, hx]
        · simp [hx]

theorem foldl_count_return_type (l : List SignatureToken) (c : Counts) (h : Bool) :
    l.foldl count_return_type (c, h) =
      ({ c with reference_return_values :=
          c.reference_return_values + l.countP isReferenceToken },
        h || l.any isReferenceToken) := by
  induction l generalizing c h with
  | nil => simp
  | cons x xs ih =>
      rw [List.foldl_cons, count_return_type_eq]
      by_cases hx : isReferenceToken x
      · rw [if_pos hx, ih]
        refine Prod.ext ?_ ?_
        · ext <;> simp [List.countP_cons, hx] <;> omega
        · simp [hx]
      · rw [if_neg hx, ih]
        refine Prod.ext ?_ ?_
        · ext <;> simp [List.countP_cons, hx]
        · simp [hx]

theorem count_function_signature_spec (c : Counts) (p r : List SignatureToken)
    (a : List Nat) :
    count_function_signature c p r a =
      { c with
        total_functions := c.total_functions + 1
        reference_parameters := c.reference_parameters + p.countP isReferenceToken
        reference_return_values := c.reference_return_values + r.countP isReferenceToken
        functions_with_reference_signatures := c.functions_with_reference_signatures +
          (if p.any isReferenceToken || r.any isReferenceToken then 1 else 0)
        functions_with_acquires := c.functions_with_acquires +
          (if a.isEmpty then 0 else 1)
        acquires_annotations := c.acquires_annotations + a.length } := by
  simp only [count_function_signature, foldl_count_parameter, foldl_count_return_type,
    Bool.false_or]
  cases hr : p.any isReferenceToken || r.any isReferenceToken <;>
    cases ha : a.isEmpty <;>
      simp only [Bool.not_true, Bool.not_false] <;>
      (ext <;> simp <;> omega)

theorem count_function_signature_shift (c d : Counts) (p r : List SignatureToken)
    (a : List Nat) :
    count_function_signature (addCounts c d) p r a =
      addCounts c (count_function_signature d p r a) := by
  rw [count_function_signature_spec, count_function_signature_spec]
  ext <;> simp [addCounts] <;> omega

theorem count_module_function_shift (m : CompiledModule) (c d : Counts)
    (f : FunctionDefinition) :
    count_module_function m (addCounts c d) f =
      addCounts c (count_module_function m d f) := by
  simp only [count_module_function, count_function_signature_shift]
  cases f.code with
  | none => rfl
  | some code => simp [count_instructions_shift]

theorem foldl_count_module_function_shift (m : CompiledModule)
    (l : List FunctionDefinition) (c d : Counts) :
    l.foldl (count_module_function m) (addCounts c d) =
      addCounts c (l.foldl (count_module_function m) d) := by
  induction l generalizing d with
  | nil => rfl
  | cons f fs ih => simp only [List.foldl_cons, count_module_function_shift, ih]

theorem count_module_shift (c d : Counts) (m : CompiledModule) :
    count_module (addCounts c d) m = addCounts c (count_module d m) := by
  have hbump :
      ({ addCounts c d with total_modules := (addCounts c d).total_modules + 1 } : Counts) =
        addCounts c { d with total_modules := d.total_modules + 1 } := by
    ext <;> simp [addCounts, Nat.add_assoc]
  have hacq : ∀ x : Counts, (addCounts c x).acquires_annotations =
      c.acquires_annotations + x.acquires_annotations := fun _ => rfl
  simp only [count_module, hbump, foldl_count_module_function_shift]
  simp only [hacq]
  by_cases h : d.acquires_annotations <
      (m.function_defs.foldl (count_module_function m)
        { d with total_modules := d.total_modules + 1 }).acquires_annotations
  · rw [if_pos (by omega), if_pos h]
    ext <;> simp [addCounts] <;> omega
  · rw [if_neg (by omega), if_neg h]

theorem count_script_shift (c d : Counts) (s : CompiledScript) :
    count_script (addCounts c d) s = addCounts c (count_script d s) := by
  simp only [count_script, count_function_signature_shift, count_instructions_shift]

theorem count_unit_shift (c d : Counts) (u : CompiledUnit) :
    count_unit (addCounts c d) u = addCounts c (count_unit d u) := by
  cases u with
  | Script s => exact count_script_shift c d s
  | Module m => exact count_module_shift c d m

theorem run_units_shift (c d : Counts) (units : List CompiledUnit) :
    run_units (addCounts c d) units = addCounts c (run_units d units) := by
  simp only [run_units]
  induction units generalizing d with
  | nil => rfl
  | cons u us ih => simp only [List.foldl_cons, count_unit_shift, ih]

theorem count_unit_delta (c : Counts) (u : CompiledUnit) :
    count_unit c u = addCounts c (count_unit Counts.default u) := by
  conv_lhs => rw [show c = addCounts c Counts.default from (addCounts_zero c).symm]
  rw [count_unit_shift]

theorem count_instruction_total (c : Counts) (i : Bytecode) :
    (count_instruction c i).total_instructions = c.total_instructions + 1 := by
  cases i <;> rfl

theorem count_instruction_refCounter (c : Counts) (i : Bytecode) (k : RefKind) :
    refCounter (count_instruction c i) k =
      refCounter c k + (if refBucket i = some k then 1 else 0) := by
  cases i <;> cases k <;> simp [count_instruction, refCounter, refBucket]

theorem count_instruction_trop (c : Counts) (i : Bytecode) :
    (count_instruction c i).total_reference_operations =
      c.total_reference_operations + (if isReferenceInstruction i then 1 else 0) := by
  cases i <;>
    simp [count_instruction, Counts.total_reference_operations,
      isReferenceInstruction, refBucket] <;>
    omega

theorem count_instruction_frame (c : Counts) (i : Bytecode) :
    (count_instruction c i).reference_parameters = c.reference_parameters ∧
    (count_instruction c i).reference_return_values = c.reference_return_values ∧
    (count_instruction c i).acquires_annotations = c.acquires_annotations ∧
    (count_instruction c i).total_functions = c.total_functions ∧
    (count_instruction c i).functions_with_reference_operations =
      c.functions_with_reference_operations ∧
    (count_instruction c i).functions_with_reference_signatures =
      c.functions_with_reference_signatures ∧
    (count_instruction c i).functions_with_acquires = c.functions_with_acquires ∧
    (count_instruction c i).total_modules = c.total_modules ∧
    (count_instruction c i).modules_with_acquires = c.modules_with_acquires := by
  cases i <;> simp [count_instruction]

theorem foldl_count_instruction_total (l : List Bytecode) (c : Counts) :
    (l.foldl count_instruction c).total_instructions = c.total_instructions + l.length := by
  induction l generalizing c with
  | nil => rfl
  | cons x xs ih =>
      rw [List.foldl_cons, ih, count_instruction_total, List.length_cons]
      omega

theorem foldl_count_instruction_trop (l : List Bytecode) (c : Counts) :
    (l.foldl count_instruction c).total_reference_operations =
      c.total_reference_operations + l.countP isReferenceInstruction := by
  induction l generalizing c with
  | nil => rfl
  | cons x xs ih =>
      rw [List.foldl_cons, ih, count_instruction_trop, List.countP_cons]
      omega

theorem foldl_count_instruction_frame (l : List Bytecode) (c : Counts) :
    (l.foldl count_instruction c).reference_parameters = c.reference_parameters ∧
    (l.foldl count_instruction c).reference_return_values = c.reference_return_values ∧
    (l.foldl count_instruction c).acquires_annotations = c.acquires_annotations ∧
    (l.foldl count_instruction c).total_functions = c.total_functions ∧
    (l.foldl count_instruction c).functions_with_reference_operations =
      c.functions_with_reference_operations ∧
    (l.foldl count_instruction c).functions_with_reference_signatures =
      c.functions_with_reference_signatures ∧
    (l.foldl count_instruction c).functions_with_acquires = c.functions_with_acquires ∧
    (l.foldl count_instruction c).total_modules = c.total_modules ∧
    (l.foldl count_instruction c).modules_with_acquires = c.modules_with_acquires := by
  induction l generalizing c with
  | nil => exact ⟨rfl, rfl, rfl, rfl, rfl, rfl, rfl, rfl, rfl⟩
  | cons x xs ih =>
      obtain ⟨a1, a2, a3, a4, a5, a6, a7, a8, a9⟩ := count_instruction_frame c x
      obtain ⟨b1, b2, b3, b4, b5, b6, b7, b8, b9⟩ := ih (count_instruction c x)
      rw [List.foldl_cons]
      exact ⟨b1.trans a1, b2.trans a2, b3.trans a3, b4.trans a4, b5.trans a5,
        b6.trans a6, b7.trans a7, b8.trans a8, b9.trans a9⟩

theorem countP_pos_iff_any {α : Type} (p : α → Bool) (l : List α) :
    0 < l.countP p ↔ l.any p = true := by
  induction l with
  | nil => simp
  | cons x xs ih =>
      cases hx : p x <;> simp [List.countP_cons, hx, ih] <;> omega

theorem countP_add_countP_not {α : Type} (p : α → Bool) (l : List α) :
    l.countP p + l.countP (fun a => !p a) = l.length := by
  induction l with
  | nil => rfl
  | cons x xs ih => cases hx : p x <;> simp [List.countP_cons, hx] <;> omega

theorem count_instructions_fields (c : Counts) (l : List Bytecode) :
    (count_instructions c l).total_instructions = c.total_instructions + l.length ∧
    (count_instructions c l).total_reference_operations =
      c.total_reference_operations + l.countP isReferenceInstruction ∧
    (count_instructions c l).functions_with_reference_operations =
      c.functions_with_reference_operations +
        (if l.any isReferenceInstruction then 1 else 0) ∧
    (count_instructions c l).reference_parameters = c.reference_parameters ∧
    (count_instructions c l).reference_return_values = c.reference_return_values ∧
    (count_instructions c l).acquires_annotations = c.acquires_annotations ∧
    (count_instructions c l).total_functions = c.total_functions ∧
    (count_instructions c l).functions_with_reference_signatures =
      c.functions_with_reference_signatures ∧
    (count_instructions c l).functions_with_acquires = c.functions_with_acquires ∧
    (count_instructions c l).total_modules = c.total_modules ∧
    (count_instructions c l).modules_with_acquires = c.modules_with_acquires := by
  obtain ⟨f1, f2, f3, f4, f5, f6, f7, f8, f9⟩ := foldl_count_instruction_frame l c
  have hti := foldl_count_instruction_total l c
  have htrop := foldl_count_instruction_trop l c
  simp only [count_instructions]
  by_cases h : c.total_reference_operations <
      (l.foldl count_instruction c).total_reference_operations
  · have hpos : 0 < l.countP isReferenceInstruction := by omega
    have hany : l.any isReferenceInstruction = true := (countP_pos_iff_any _ l).mp hpos
    rw [if_pos h]
    simp only [hany, if_true]
    exact ⟨hti, htrop, by rw [f5], f1, f2, f3, f4, f6, f7, f8, f9⟩
  · have hzero : l.countP isReferenceInstruction = 0 := by omega
    have hany : ¬l.any isReferenceInstruction = true := by
      intro hc
      exact absurd ((countP_pos_iff_any _ l).mpr hc) (by omega)
    rw [if_neg h]
    simp only [eq_false_of_ne_true hany, Bool.false_eq_true, if_false]
    exact ⟨hti, htrop, by omega, f1, f2, f3, f4, f6, f7, f8, f9⟩

theorem csf_total_functions (c : Counts) (p r : List SignatureToken) (a : List Nat) :
    (count_function_signature c p r a).total_functions = c.total_functions + 1 := by
  rw [count_function_signature_spec]

theorem csf_reference_parameters (c : Counts) (p r : List SignatureToken) (a : List Nat) :
    (count_function_signature c p r a).reference_parameters =
      c.reference_parameters + p.countP isReferenceToken := by
  rw [count_function_signature_spec]

theorem csf_reference_return_values (c : Counts) (p r : List SignatureToken) (a : List Nat) :
    (count_function_signature c p r a).reference_return_values =
      c.reference_return_values + r.countP isReferenceToken := by
  rw [count_function_signature_spec]

theorem csf_fwrs (c : Counts) (p r : List SignatureToken) (a : List Nat) :
    (count_function_signature c p r a).functions_with_reference_signatures =
      c.functions_with_reference_signatures +
        (if p.any isReferenceToken || r.any isReferenceToken then 1 else 0) := by
  rw [count_function_signature_spec]

theorem csf_fwa (c : Counts) (p r : List SignatureToken) (a : List Nat) :
    (count_function_signature c p r a).functions_with_acquires =
      c.functions_with_acquires + (if a.isEmpty then 0 else 1) := by
  rw [count_function_signature_spec]

theorem csf_acquires (c : Counts) (p r : List SignatureToken) (a : List Nat) :
    (count_function_signature c p r a).acquires_annotations =
      c.acquires_annotations + a.length := by
  rw [count_function_signature_spec]

theorem csf_total_instructions (c : Counts) (p r : List SignatureToken) (a : List Nat) :
    (count_function_signature c p r a).total_instructions = c.total_instructions := by
  rw [count_function_signature_spec]

theorem csf_trop (c : Counts) (p r : List SignatureToken) (a : List Nat) :
    (count_function_signature c p r a).total_reference_operations =
      c.total_reference_operations := by
  rw [count_function_signature_spec]
  simp [Counts.total_reference_operations]

theorem csf_fwro (c : Counts) (p r : List SignatureToken) (a : List Nat) :
    (count_function_signature c p r a).functions_with_reference_operations =
      c.functions_with_reference_operations := by
  rw [count_function_signature_spec]

theorem csf_total_modules (c : Counts) (p r : List SignatureToken) (a : List Nat) :
    (count_function_signature c p r a).total_modules = c.total_modules := by
  rw [count_function_signature_spec]

theorem csf_mwa (c : Counts) (p r : List SignatureToken) (a : List Nat) :
    (count_function_signature c p r a).modules_with_acquires = c.modules_with_acquires := by
  rw [count_function_signature_spec]

theorem count_module_function_ti_trop (m : CompiledModule) (c : Counts)
    (f : FunctionDefinition) :
    ∃ nIns nRef : Nat, nRef ≤ nIns ∧
      (count_module_function m c f).total_instructions = c.total_instructions + nIns ∧
      (count_module_function m c f).total_reference_operations =
        c.total_reference_operations + nRef := by
  cases hc : f.code with
  | none =>
      refine ⟨0, 0, Nat.le_refl 0, ?_, ?_⟩ <;>
        simp [count_module_function, hc, csf_total_instructions, csf_trop]
  | some cu =>
      obtain ⟨g1, g2, -⟩ := count_instructions_fields
        (count_function_signature c
          (m.signatures.getD (m.function_handles.getD f.function ⟨0, 0⟩).parameters [])
          (m.signatures.getD (m.function_handles.getD f.function ⟨0, 0⟩).return_ [])
          f.acquires_global_resources) cu.code
      refine ⟨cu.code.length, cu.code.countP isReferenceInstruction,
        List.countP_le_length _, ?_, ?_⟩
      · simp only [count_module_function, hc]
        rw [g1, csf_total_instructions]
      · simp only [count_module_function, hc]
        rw [g2, csf_trop]

theorem count_module_function_fun_fields (m : CompiledModule) (c : Counts)
    (f : FunctionDefinition) :
    (count_module_function m c f).total_functions = c.total_functions + 1 ∧
    c.functions_with_reference_operations ≤
      (count_module_function m c f).functions_with_reference_operations ∧
    (count_module_function m c f).functions_with_reference_operations ≤
      c.functions_with_reference_operations + 1 ∧
    c.functions_with_reference_signatures ≤
      (count_module_function m c f).functions_with_reference_signatures ∧
    (count_module_function m c f).functions_with_reference_signatures ≤
      c.functions_with_reference_signatures + 1 ∧
    c.functions_with_acquires ≤ (count_module_function m c f).functions_with_acquires ∧
    (count_module_function m c f).functions_with_acquires ≤
      c.functions_with_acquires + 1 ∧
    (count_module_function m c f).total_modules = c.total_modules ∧
    (count_module_function m c f).modules_with_acquires = c.modules_with_acquires := by
  cases hc : f.code with
  | none =>
      simp only [count_module_function, hc]
      rw [count_function_signature_spec]
      refine ⟨rfl, Nat.le_refl _, Nat.le_succ _, ?_, ?_, ?_, ?_, rfl, rfl⟩ <;>
        dsimp only <;> split <;> omega
  | some cu =>
      simp only [count_module_function, hc]
      obtain ⟨-, -, g3, -, -, -, g7, g8, g9, g10, g11⟩ := count_instructions_fields
        (count_function_signature c
          (m.signatures.getD (m.function_handles.getD f.function ⟨0, 0⟩).parameters [])
          (m.signatures.getD (m.function_handles.getD f.function ⟨0, 0⟩).return_ [])
          f.acquires_global_resources) cu.code
      refine ⟨?_, ?_, ?_, ?_, ?_, ?_, ?_, ?_, ?_⟩
      · rw [g7, csf_total_functions]
      · rw [g3, csf_fwro]
        split <;> omega
      · rw [g3, csf_fwro]
        split <;> omega
      · rw [g8, csf_fwrs]
        split <;> omega
      · rw [g8, csf_fwrs]
        split <;> omega
      · rw [g9, csf_fwa]
        split <;> omega
      · rw [g9, csf_fwa]
        split <;> omega
      · rw [g10, csf_total_modules]
      · rw [g11, csf_mwa]

theorem foldl_cmf_ti_trop (m : CompiledModule) (l : List FunctionDefinition) :
    ∀ c : Counts, ∃ nIns nRef : Nat, nRef ≤ nIns ∧
      (l.foldl (count_module_function m) c).total_instructions =
        c.total_instructions + nIns ∧
      (l.foldl (count_module_function m) c).total_reference_operations =
        c.total_reference_operations + nRef := by
  induction l with
  | nil => exact fun c => ⟨0, 0, Nat.le_refl 0, by simp, by simp⟩
  | cons f fs ih =>
      intro c
      obtain ⟨n1, k1, hk1, h1, h2⟩ := count_module_function_ti_trop m c f
      obtain ⟨n2, k2, hk2, h3, h4⟩ := ih (count_module_function m c f)
      refine ⟨n1 + n2, k1 + k2, by omega, ?_, ?_⟩ <;> rw [List.foldl_cons] <;> omega

theorem count_module_ti_trop (c : Counts) (m : CompiledModule) :
    ∃ nIns nRef : Nat, nRef ≤ nIns ∧
      (count_module c m).total_instructions = c.total_instructions + nIns ∧
      (count_module c m).total_reference_operations =
        c.total_reference_operations + nRef := by
  obtain ⟨n, k, hk, h1, h2⟩ := foldl_cmf_ti_trop m m.function_defs
    { c with total_modules := c.total_modules + 1 }
  try dsimp only at h1
  dsimp only [Counts.total_reference_operations] at h2
  refine ⟨n, k, hk, ?_, ?_⟩ <;> simp only [count_module] <;> split <;>
    (try dsimp only [Counts.total_reference_operations]) <;> omega

theorem count_script_ti_trop (c : Counts) (s : CompiledScript) :
    ∃ nIns nRef : Nat, nRef ≤ nIns ∧
      (count_script c s).total_instructions = c.total_instructions + nIns ∧
      (count_script c s).total_reference_operations =
        c.total_reference_operations + nRef := by
  obtain ⟨g1, g2, -⟩ := count_instructions_fields
    (count_function_signature c (s.signatures.getD s.parameters []) [] []) s.code.code
  rw [csf_total_instructions] at g1
  rw [csf_trop] at g2
  exact ⟨s.code.code.length, s.code.code.countP isReferenceInstruction,
    List.countP_le_length _, g1, g2⟩

theorem count_unit_ti_trop (c : Counts) (u : CompiledUnit) :
    ∃ nIns nRef : Nat, nRef ≤ nIns ∧
      (count_unit c u).total_instructions = c.total_instructions + nIns ∧
      (count_unit c u).total_reference_operations =
        c.total_reference_operations + nRef := by
  cases u with
  | Script s => exact count_script_ti_trop c s
  | Module m => exact count_module_ti_trop c m

theorem run_units_trop_le_ti (units : List CompiledUnit) :
    ∀ c : Counts, c.total_reference_operations ≤ c.total_instructions →
      (run_units c units).total_reference_operations ≤
        (run_units c units).total_instructions := by
  induction units with
  | nil => exact fun c h => h
  | cons u us ih =>
      intro c h
      obtain ⟨n, k, hk, h1, h2⟩ := count_unit_ti_trop c u
      exact ih (count_unit c u) (by omega)

theorem foldl_cmf_invariants (m : CompiledModule) (l : List FunctionDefinition) :
    ∀ c : Counts,
      c.functions_with_reference_operations ≤ c.total_functions →
      c.functions_with_reference_signatures ≤ c.total_functions →
      c.functions_with_acquires ≤ c.total_functions →
      ((l.foldl (count_module_function m) c).functions_with_reference_operations ≤
          (l.foldl (count_module_function m) c).total_functions ∧
        (l.foldl (count_module_function m) c).functions_with_reference_signatures ≤
          (l.foldl (count_module_function m) c).total_functions ∧
        (l.foldl (count_module_function m) c).functions_with_acquires ≤
          (l.foldl (count_module_function m) c).total_functions ∧
        (l.foldl (count_module_function m) c).total_modules = c.total_modules ∧
        (l.foldl (count_module_function m) c).modules_with_acquires =
          c.modules_with_acquires) := by
  induction l with
  | nil => exact fun c h1 h2 h3 => ⟨h1, h2, h3, rfl, rfl⟩
  | cons f fs ih =>
      intro c h1 h2 h3
      obtain ⟨a1, a2, a3, a4, a5, a6, a7, a8, a9⟩ := count_module_function_fun_fields m c f
      obtain ⟨b1, b2, b3, b4, b5⟩ :=
        ih (count_module_function m c f) (by omega) (by omega) (by omega)
      rw [List.foldl_cons]
      exact ⟨b1, b2, b3, b4.trans a8, b5.trans a9⟩

theorem count_module_invariants (c : Counts) (m : CompiledModule)
    (h1 : c.functions_with_reference_operations ≤ c.total_functions)
    (h2 : c.functions_with_reference_signatures ≤ c.total_functions)
    (h3 : c.functions_with_acquires ≤ c.total_functions)
    (h4 : c.modules_with_acquires ≤ c.total_modules) :
    (count_module c m).functions_with_reference_operations ≤
        (count_module c m).total_functions ∧
      (count_module c m).functions_with_reference_signatures ≤
        (count_module c m).total_functions ∧
      (count_module c m).functions_with_acquires ≤ (count_module c m).total_functions ∧
      (count_module c m).modules_with_acquires ≤ (count_module c m).total_modules := by
  obtain ⟨b1, b2, b3, b4, b5⟩ := foldl_cmf_invariants m m.function_defs
    { c with total_modules := c.total_modules + 1 }
    (by (try dsimp only); omega) (by (try dsimp only); omega) (by (try dsimp only); omega)
  try dsimp only at b4 b5
  simp only [count_module]
  split <;> (try dsimp only) <;> refine ⟨?_, ?_, ?_, ?_⟩ <;> omega

theorem count_script_invariants (c : Counts) (s : CompiledScript)
    (h1 : c.functions_with_reference_operations ≤ c.total_functions)
    (h2 : c.functions_with_reference_signatures ≤ c.total_functions)
    (h3 : c.functions_with_acquires ≤ c.total_functions)
    (h4 : c.modules_with_acquires ≤ c.total_modules) :
    (count_script c s).functions_with_reference_operations ≤
        (count_script c s).total_functions ∧
      (count_script c s).functions_with_reference_signatures ≤
        (count_script c s).total_functions ∧
      (count_script c s).functions_with_acquires ≤ (count_script c s).total_functions ∧
      (count_script c s).modules_with_acquires ≤ (count_script c s).total_modules := by
  obtain ⟨-, -, g3, -, -, -, g7, g8, g9, g10, g11⟩ := count_instructions_fields
    (count_function_signature c (s.signatures.getD s.parameters []) [] []) s.code.code
  simp only [count_script]
  refine ⟨?_, ?_, ?_, ?_⟩
  · rw [g3, g7, csf_fwro, csf_total_functions]
    split <;> omega
  · rw [g8, g7, csf_fwrs, csf_total_functions]
    split <;> omega
  · rw [g9, g7, csf_fwa, csf_total_functions]
    split <;> omega
  · rw [g11, g10, csf_mwa, csf_total_modules]
    omega

theorem count_unit_invariants (c : Counts) (u : CompiledUnit)
    (h1 : c.functions_with_reference_operations ≤ c.total_functions)
    (h2 : c.functions_with_reference_signatures ≤ c.total_functions)
    (h3 : c.functions_with_acquires ≤ c.total_functions)
    (h4 : c.modules_with_acquires ≤ c.total_modules) :
    (count_unit c u).functions_with_reference_operations ≤
        (count_unit c u).total_functions ∧
      (count_unit c u).functions_with_reference_signatures ≤
        (count_unit c u).total_functions ∧
      (count_unit c u).functions_with_acquires ≤ (count_unit c u).total_functions ∧
      (count_unit c u).modules_with_acquires ≤ (count_unit c u).total_modules := by
  cases u with
  | Script s => exact count_script_invariants c s h1 h2 h3 h4
  | Module m => exact count_module_invariants c m h1 h2 h3 h4

theorem run_units_invariants (units : List CompiledUnit) :
    ∀ c : Counts,
      c.functions_with_reference_operations ≤ c.total_functions →
      c.functions_with_reference_signatures ≤ c.total_functions →
      c.functions_with_acquires ≤ c.total_functions →
      c.modules_with_acquires ≤ c.total_modules →
      ((run_units c units).functions_with_reference_operations ≤
          (run_units c units).total_functions ∧
        (run_units c units).functions_with_reference_signatures ≤
          (run_units c units).total_functions ∧
        (run_units c units).functions_with_acquires ≤
          (run_units c units).total_functions ∧
        (run_units c units).modules_with_acquires ≤ (run_units c units).total_modules) := by
  induction units with
  | nil => exact fun c h1 h2 h3 h4 => ⟨h1, h2, h3, h4⟩
  | cons u us ih =>
      intro c h1 h2 h3 h4
      obtain ⟨b1, b2, b3, b4⟩ := count_unit_invariants c u h1 h2 h3 h4
      exact ih (count_unit c u) b1 b2 b3 b4

theorem foldl_perm_of_right_comm {α β : Type} (f : β → α → β)
    (hf : ∀ (b : β) (x y : α), f (f b x) y = f (f b y) x) :
    ∀ {l₁ l₂ : List α}, l₁.Perm l₂ → ∀ b : β, l₁.foldl f b = l₂.foldl f b := by
  intro l₁ l₂ hp
  induction hp with
  | nil => intro b; rfl
  | cons x _ ih => intro b; rw [List.foldl_cons, List.foldl_cons, ih]
  | swap x y l =>
      intro b
      rw [List.foldl_cons, List.foldl_cons, List.foldl_cons, List.foldl_cons, hf]
  | trans _ _ ih₁ ih₂ => intro b; rw [ih₁, ih₂]

theorem count_unit_right_comm (c : Counts) (u v : CompiledUnit) :
    count_unit (count_unit c u) v = count_unit (count_unit c v) u := by
  have h : ∀ a b : CompiledUnit, count_unit (count_unit c a) b =
      addCounts c (addCounts (count_unit Counts.default a)
        (count_unit Counts.default b)) := by
    intro a b
    rw [count_unit_delta c a, count_unit_shift,
      count_unit_delta (count_unit Counts.default a) b]
  rw [h u v, h v u, addCounts_comm (count_unit Counts.default u)]

theorem count_module_function_delta (m : CompiledModule) (c : Counts)
    (f : FunctionDefinition) :
    count_module_function m c f =
      addCounts c (count_module_function m Counts.default f) := by
  conv_lhs => rw [show c = addCounts c Counts.default from (addCounts_zero c).symm]
  rw [count_module_function_shift]

theorem count_module_function_right_comm (m : CompiledModule) (c : Counts)
    (f g : FunctionDefinition) :
    count_module_function m (count_module_function m c f) g =
      count_module_function m (count_module_function m c g) f := by
  have h : ∀ a b : FunctionDefinition,
      count_module_function m (count_module_function m c a) b =
        addCounts c (addCounts (count_module_function m Counts.default a)
          (count_module_function m Counts.default b)) := by
    intro a b
    rw [count_module_function_delta m c a, count_module_function_shift,
      count_module_function_delta m (count_module_function m Counts.default a) b]
  rw [h f g, h g f, addCounts_comm (count_module_function m Counts.default f)]

/-! The claims. -/

/-- Claim C1: for every instruction, `count_instruction` increments
`total_instructions` by exactly 1 and selects exactly one of the 8 buckets:
each of the 7 reference counters (read through `refCounter`) grows by 1
precisely when `refBucket` assigns the instruction that bucket — so a tracked
instruction bumps exactly one counter and an untracked instruction bumps none —
the reference-operation sum grows by 1 exactly on tracked instructions, and the
generic field/global borrows share the bucket of their non-generic
counterparts. -/
theorem count_instruction_one_bucket (c : Counts) (i : Bytecode) :
    (count_instruction c i).total_instructions = c.total_instructions + 1 ∧
    (∀ k : RefKind, refCounter (count_instruction c i) k =
      refCounter c k + (if refBucket i = some k then 1 else 0)) ∧
    (count_instruction c i).total_reference_operations =
      c.total_reference_operations + (if isReferenceInstruction i then 1 else 0) ∧
    (∀ n : Nat,
      refBucket (Bytecode.ImmBorrowFieldGeneric n) = refBucket (Bytecode.ImmBorrowField n) ∧
      refBucket (Bytecode.MutBorrowFieldGeneric n) = refBucket (Bytecode.MutBorrowField n) ∧
      refBucket (Bytecode.ImmBorrowGlobalGeneric n) =
        refBucket (Bytecode.ImmBorrowGlobal n) ∧
      refBucket (Bytecode.MutBorrowGlobalGeneric n) =
        refBucket (Bytecode.MutBorrowGlobal n)) :=
  ⟨count_instruction_total c i, count_instruction_refCounter c i,
    count_instruction_trop c i, fun _ => ⟨rfl, rfl, rfl, rfl⟩⟩

/-- Claim C2: `count_function_signature` increments `total_functions` by 1,
`reference_parameters` and `reference_return_values` by the number of reference
tokens in the parameter and return lists, `functions_with_reference_signatures`
by 1 exactly when some parameter or return token is a reference,
`functions_with_acquires` by 1 exactly when the acquire list is non-empty, and
`acquires_annotations` by the acquire list's length. -/
theorem count_function_signature_counts (c : Counts) (p r : List SignatureToken)
    (a : List Nat) :
    (count_function_signature c p r a).total_functions = c.total_functions + 1 ∧
    (count_function_signature c p r a).reference_parameters =
      c.reference_parameters + p.countP isReferenceToken ∧
    (count_function_signature c p r a).reference_return_values =
      c.reference_return_values + r.countP isReferenceToken ∧
    (count_function_signature c p r a).functions_with_reference_signatures =
      c.functions_with_reference_signatures +
        (if p.any isReferenceToken || r.any isReferenceToken then 1 else 0) ∧
    (count_function_signature c p r a).functions_with_acquires =
      c.functions_with_acquires + (if a.isEmpty then 0 else 1) ∧
    (count_function_signature c p r a).acquires_annotations =
      c.acquires_annotations + a.length :=
  ⟨csf_total_functions c p r a, csf_reference_parameters c p r a,
    csf_reference_return_values c p r a, csf_fwrs c p r a, csf_fwa c p r a,
    csf_acquires c p r a⟩

/-- Claim C3: `count_instructions` increments
`functions_with_reference_operations` by exactly 1 when the sequence contains a
tracked reference operation (equivalently, when the before/after sum of the 7
reference counters strictly grew) and leaves it unchanged otherwise; every
instruction is classified exactly once (`total_instructions` grows by the
sequence length, the reference-operation sum by the number of tracked
instructions). -/
theorem count_instructions_flags_once (c : Counts) (l : List Bytecode) :
    (count_instructions c l).functions_with_reference_operations =
      c.functions_with_reference_operations +
        (if l.any isReferenceInstruction then 1 else 0) ∧
    (count_instructions c l).total_instructions = c.total_instructions + l.length ∧
    (count_instructions c l).total_reference_operations =
      c.total_reference_operations + l.countP isReferenceInstruction ∧
    ((count_instructions c l).functions_with_reference_operations =
        c.functions_with_reference_operations + 1 ↔
      c.total_reference_operations <
        (count_instructions c l).total_reference_operations) := by
  obtain ⟨g1, g2, g3, -⟩ := count_instructions_fields c l
  refine ⟨g3, g1, g2, ?_⟩
  have hiff := countP_pos_iff_any isReferenceInstruction l
  cases hany : l.any isReferenceInstruction
  · have h0 : l.countP isReferenceInstruction = 0 := by
      by_contra hne
      have hpos : 0 < l.countP isReferenceInstruction := Nat.pos_of_ne_zero hne
      rw [hiff, hany] at hpos
      exact Bool.false_ne_true hpos
    rw [g3, g2, hany, h0]
    simp
  · have h1 : 0 < l.countP isReferenceInstruction := hiff.mpr hany
    rw [g3, g2, hany, if_pos rfl]
    omega

/-- Claim C4: in every state reachable from the all-zero `Counts` by a sequence
of unit walks, `total_instructions` dominates the sum of the 7
reference-operation counters; and on any synthetic instruction stream,
`total_instructions` grows by the number of reference instructions plus the
number of non-reference instructions, while the reference sum grows by the
former alone. -/
theorem total_instructions_dominates_reference_ops :
    (∀ units : List CompiledUnit,
      (run_units Counts.default units).total_reference_operations ≤
        (run_units Counts.default units).total_instructions) ∧
    (∀ (c : Counts) (l : List Bytecode),
      (count_instructions c l).total_instructions =
        c.total_instructions + l.countP isReferenceInstruction +
          l.countP (fun i => !isReferenceInstruction i) ∧
      (count_instructions c l).total_reference_operations =
        c.total_reference_operations + l.countP isReferenceInstruction) := by
  constructor
  · intro units
    exact run_units_trop_le_ti units Counts.default (by decide)
  · intro c l
    obtain ⟨g1, g2, -⟩ := count_instructions_fields c l
    refine ⟨?_, g2⟩
    rw [g1, ← countP_add_countP_not isReferenceInstruction l]
    omega

/-- Claim C5: in every state reachable from the all-zero `Counts` by a sequence
of unit walks, each per-function counter is bounded by `total_functions` and
`modules_with_acquires` is bounded by `total_modules`. -/
theorem per_function_counters_bounded (units : List CompiledUnit) :
    (run_units Counts.default units).functions_with_reference_operations ≤
        (run_units Counts.default units).total_functions ∧
      (run_units Counts.default units).functions_with_reference_signatures ≤
        (run_units Counts.default units).total_functions ∧
      (run_units Counts.default units).functions_with_acquires ≤
        (run_units Counts.default units).total_functions ∧
      (run_units Counts.default units).modules_with_acquires ≤
        (run_units Counts.default units).total_modules :=
  run_units_invariants units Counts.default (by decide) (by decide) (by decide)
    (by decide)

/-- Claim C6: `count_script` never touches the module counters, classifies the
script's single function with empty return and acquire lists — so
`reference_return_values`, `acquires_annotations` and `functions_with_acquires`
are unchanged while `total_functions` grows by 1 — and walks the script's single
body, growing `total_instructions` by its length. -/
theorem count_script_module_frame (c : Counts) (s : CompiledScript) :
    (count_script c s).total_modules = c.total_modules ∧
    (count_script c s).modules_with_acquires = c.modules_with_acquires ∧
    (count_script c s).reference_return_values = c.reference_return_values ∧
    (count_script c s).acquires_annotations = c.acquires_annotations ∧
    (count_script c s).functions_with_acquires = c.functions_with_acquires ∧
    (count_script c s).total_functions = c.total_functions + 1 ∧
    (count_script c s).total_instructions = c.total_instructions + s.code.code.length := by
  obtain ⟨g1, -, -, -, g5, g6, g7, -, g9, g10, g11⟩ := count_instructions_fields
    (count_function_signature c (s.signatures.getD s.parameters []) [] []) s.code.code
  simp only [count_script]
  refine ⟨?_, ?_, ?_, ?_, ?_, ?_, ?_⟩
  · rw [g10, csf_total_modules]
  · rw [g11, csf_mwa]
  · rw [g5, csf_reference_return_values]
    simp
  · rw [g6, csf_acquires]
    simp
  · rw [g9, csf_fwa]
    simp
  · rw [g7, csf_total_functions]
  · rw [g1, csf_total_instructions]

/-- Claim C7: the final `Counts` is order-independent — permuting the corpus of
units, or the function definitions inside a module, yields the same result from
the same starting state. -/
theorem counts_order_independent :
    (∀ (c : Counts) (u₁ u₂ : List CompiledUnit), u₁.Perm u₂ →
      run_units c u₁ = run_units c u₂) ∧
    (∀ (c : Counts) (m : CompiledModule) (fdefs : List FunctionDefinition),
      m.function_defs.Perm fdefs →
      count_module c m = count_module c { m with function_defs := fdefs }) := by
  constructor
  · intro c u₁ u₂ hp
    exact foldl_perm_of_right_comm count_unit
      (fun b x y => count_unit_right_comm b x y) hp c
  · intro c m fdefs hp
    have hcm : count_module_function { m with function_defs := fdefs } =
        count_module_function m := rfl
    have hfold : m.function_defs.foldl (count_module_function m)
        { c with total_modules := c.total_modules + 1 } =
      fdefs.foldl (count_module_function m)
        { c with total_modules := c.total_modules + 1 } :=
      foldl_perm_of_right_comm (count_module_function m)
        (fun b x y => count_module_function_right_comm m b x y) hp _
    unfold count_module
    dsimp only
    rw [hcm, hfold]

/-- Witness for claim C7 at concrete inputs: swapping two concrete units, and
the two function definitions of a concrete module, leaves the counts equal. -/
theorem counts_order_independent_witness :
    run_units Counts.default [unitA, unitB] = run_units Counts.default [unitB, unitA] ∧
    count_module Counts.default moduleAB =
      count_module Counts.default { moduleAB with function_defs := [fdefB, fdefA] } :=
  ⟨counts_order_independent.1 Counts.default [unitA, unitB] [unitB, unitA]
      (List.Perm.swap unitB unitA []),
    counts_order_independent.2 Counts.default moduleAB [fdefB, fdefA]
      (List.Perm.swap fdefB fdefA [])⟩

/-- Claim C8: on scenario A — one module, one function with body
`[ImmBorrowLoc, MutBorrowField, FreezeRef]`, one `Reference` parameter, no
returns, no acquires — the final counts are exactly as the spec tabulates. -/
theorem scenarioA_counts :
    count_module Counts.default scenarioA =
      { imm_borrow_loc := 1
        mut_borrow_field := 1
        freeze := 1
        total_instructions := 3
        reference_parameters := 1
        total_functions := 1
        functions_with_reference_operations := 1
        functions_with_reference_signatures := 1
        total_modules := 1 } := by
  decide

/-- Claim C9: when the verification error list is non-empty the run aborts
before any counting (no `Counts` is produced); counting proceeds exactly when
the error list is empty. -/
theorem verification_gate (units : List CompiledUnit) (errors : List Nat) :
    (errors ≠ [] → analyze_verified_units units errors = none) ∧
    (errors = [] → analyze_verified_units units errors =
      some (run_units Counts.default units)) := by
  constructor
  · intro h
    simp [analyze_verified_units, h]
  · intro h
    simp [analyze_verified_units, h]

/-- Witness for claim C9 at concrete inputs: a singleton error list aborts, the
empty error list counts. -/
theorem verification_gate_witness :
    analyze_verified_units [] [0] = none ∧
    analyze_verified_units [] [] = some (run_units Counts.default []) :=
  ⟨(verification_gate [] [0]).1 (by decide), (verification_gate [] []).2 rfl⟩

/-- Claim C10: `count_function_signature` leaves every non-signature field of
`Counts` unchanged — the 7 reference-operation counters, `total_instructions`,
`functions_with_reference_operations`, `total_modules` and
`modules_with_acquires`. -/
theorem count_function_signature_frame (c : Counts) (p r : List SignatureToken)
    (a : List Nat) :
    (count_function_signature c p r a).imm_borrow_loc = c.imm_borrow_loc ∧
    (count_function_signature c p r a).mut_borrow_loc = c.mut_borrow_loc ∧
    (count_function_signature c p r a).imm_borrow_field = c.imm_borrow_field ∧
    (count_function_signature c p r a).mut_borrow_field = c.mut_borrow_field ∧
    (count_function_signature c p r a).imm_borrow_global = c.imm_borrow_global ∧
    (count_function_signature c p r a).mut_borrow_global = c.mut_borrow_global ∧
    (count_function_signature c p r a).freeze = c.freeze ∧
    (count_function_signature c p r a).total_instructions = c.total_instructions ∧
    (count_function_signature c p r a).functions_with_reference_operations =
      c.functions_with_reference_operations ∧
    (count_function_signature c p r a).total_modules = c.total_modules ∧
    (count_function_signature c p r a).modules_with_acquires = c.modules_with_acquires := by
  rw [count_function_signature_spec]
  exact ⟨rfl, rfl, rfl, rfl, rfl, rfl, rfl, rfl, rfl, rfl, rfl⟩

end PaperAnalyze
